import Mathlib

/-!
Shallow embedding of the dependency-injection container from
`src/container.ts` together with the decorator metadata helpers from
`src/decorators.ts`.

Modelling choices:
* A `RegistryKey` is either a string name or a class identity; class
  identities are natural-number ids (JavaScript compares class keys by
  reference).
* A "world" maps each class id to its static data: display name,
  injection metadata (the object written by the `Inject` decorator, a
  partial map from parameter index to `string | USE_TYPE_RESOLUTION`)
  and the `design:paramtypes` list (absent when the reflection metadata
  is missing).
* JavaScript `Map` objects become association lists with first-match
  lookup; `Map.set` replaces the first matching entry or appends.
* Object identity of `new ClassType(...)` is modelled by an allocation
  counter `nextAlloc` threaded through the container state: each
  construction yields `Value.obj cid alloc args` with a fresh `alloc`.
* Exceptions become explicit error results that carry the container
  state at the point of the throw (JavaScript mutations performed before
  a throw persist).
* The unbounded recursion of `get` is modelled with fuel; `none` means
  the fuel ran out (the source would still be recursing).
-/

inductive RegistryKey where
  | name (s : String)
  | cls (id : Nat)
deriving DecidableEq

/-- A resolution directive stored by the `Inject` decorator: either a
nonempty string name or the `USE_TYPE_RESOLUTION` symbol. -/
inductive InjectDirective where
  | byName (s : String)
  | byType
deriving DecidableEq

/-- Static data of a class id: display name, inject metadata (absent when
`getInjectMetadata` returns `undefined`) and declared constructor
parameter types (absent when `design:paramtypes` metadata is missing). -/
structure ClassInfo where
  name : String
  injectMetadata : Option (List (Nat × InjectDirective))
  paramTypes : Option (List Nat)

def World : Type := Nat → ClassInfo

/-- Runtime values: `undef` is the JavaScript `undefined` filling an
argument slot with no directive, `ext` is an externally constructed
value handed to `registerInstance`, and `obj cid alloc args` is the
result of `new ClassType(...args)` with allocation identity `alloc`. -/
inductive Value where
  | undef
  | ext (n : Nat)
  | obj (cls : Nat) (alloc : Nat) (args : List Value)

structure Container where
  registry : List (RegistryKey × Nat)
  instances : List (RegistryKey × Value)
  singletons : List RegistryKey
  nextAlloc : Nat

/-- First-match association-list lookup (`Map.get` / `Map.has`). -/
def lookupA {α : Type} : List (RegistryKey × α) → RegistryKey → Option α
  | [], _ => none
  | (k, v) :: rest, key => if k = key then some v else lookupA rest key

/-- `Map.set`: replace the first entry with the given key, else append. -/
def setA {α : Type} : List (RegistryKey × α) → RegistryKey → α → List (RegistryKey × α)
  | [], key, v => [(key, v)]
  | (k, v₀) :: rest, key, v =>
    if k = key then (key, v) :: rest else (k, v₀) :: setA rest key v

/-- `Set.add`: append the key when it is not already present. -/
def addS (l : List RegistryKey) (key : RegistryKey) : List RegistryKey :=
  if key ∈ l then l else l ++ [key]

/-- `typeof key === "string" ? key : key.name`. -/
def keyName (w : World) : RegistryKey → String
  | .name s => s
  | .cls id => (w id).name

inductive DIError where
  | missingType
  | duplicateRegistration (key : String)
  | duplicateInstance (key : String)
  | notRegistered (key : String)
deriving DecidableEq

def quoteChar : Char := Char.ofNat 39

def quoted (s : String) : String :=
  String.singleton quoteChar ++ s ++ String.singleton quoteChar

/-- The message of each `throw new Error(...)` in `container.ts`. -/
def errMessage : DIError → String
  | .missingType => "ClassType is required when registering with a string name"
  | .duplicateRegistration k => "Dependency " ++ quoted k ++ " is already registered"
  | .duplicateInstance k => "Instance " ++ quoted k ++ " is already registered"
  | .notRegistered k => "Dependency " ++ quoted k ++ " is not registered"

/-- JavaScript truthiness of the metadata entry `string | symbol` tested
by `if (dependencyMetadata)`: the symbol is truthy, a string is truthy
iff nonempty. -/
def truthy : InjectDirective → Bool
  | .byName s => !s.isEmpty
  | .byType => true

/-- The key a truthy directive resolves: `shouldUseTypeResolution`
directs to the declared parameter type, a string directs to that name. -/
def dirKey : InjectDirective → Nat → RegistryKey
  | .byName s, _ => .name s
  | .byType, pt => .cls pt

/-- Lookup of `injectMetadata[i]` in the decorator-written object. -/
def lookupNat {α : Type} : List (Nat × α) → Nat → Option α
  | [], _ => none
  | (i, v) :: rest, j => if i = j then some v else lookupNat rest j

/-- Shared tail of `register`: the duplicate check followed by the
`registry.set` and the conditional `singletons.add`. -/
def registerKey (w : World) (c : Container) (key : RegistryKey) (t : Nat)
    (singleton : Bool) : Option DIError × Container :=
  if (lookupA c.registry key).isSome then
    (some (.duplicateRegistration (keyName w key)), c)
  else
    (none, { c with registry := setA c.registry key t,
                    singletons := if singleton then addS c.singletons key
                                  else c.singletons })

/-- `Container.register(name, classType?, singleton = true)`. -/
def Container.register (w : World) (c : Container) (key : RegistryKey)
    (classType : Option Nat) (singleton : Bool) : Option DIError × Container :=
  match key, classType with
  | .name _, none => (some .missingType, c)
  | .name s, some t => registerKey w c (.name s) t singleton
  | .cls id, _ => registerKey w c (.cls id) id singleton

/-- `Container.registerInstance(name, instance)`. -/
def Container.registerInstance (w : World) (c : Container) (key : RegistryKey)
    (inst : Value) : Option DIError × Container :=
  if (lookupA c.instances key).isSome then
    (some (.duplicateInstance (keyName w key)), c)
  else
    (none, { c with instances := setA c.instances key inst,
                    singletons := addS c.singletons key })

/-- After `instance = new ClassType(...)`: `if (this.singletons.has(key))
this.instances.set(key, instance)`. -/
def finishInstance (key : RegistryKey) (inst : Value) (c : Container) : Container :=
  if key ∈ c.singletons then { c with instances := setA c.instances key inst }
  else c

/-- The argument-resolution loop of `get`: for each parameter position
`i` (paired with its declared type), a truthy metadata entry resolves
the argument through the recursive `get` (passed in as `g`), threading
the container state; otherwise the slot stays `undefined`. -/
def resolveArgs (g : Container → RegistryKey → Option (Except DIError Value × Container))
    (md : List (Nat × InjectDirective)) :
    Container → List (Nat × Nat) → Option (Except DIError (List Value) × Container)
  | c, [] => some (.ok [], c)
  | c, (i, pt) :: rest =>
    match lookupNat md i with
    | some d =>
      if truthy d then
        match g c (dirKey d pt) with
        | none => none
        | some (.error e, c₂) => some (.error e, c₂)
        | some (.ok v, c₂) =>
          match resolveArgs g md c₂ rest with
          | none => none
          | some (.error e, c₃) => some (.error e, c₃)
          | some (.ok vs, c₃) => some (.ok (v :: vs), c₃)
      else
        match resolveArgs g md c rest with
        | none => none
        | some (.error e, c₃) => some (.error e, c₃)
        | some (.ok vs, c₃) => some (.ok (Value.undef :: vs), c₃)
    | none =>
      match resolveArgs g md c rest with
      | none => none
      | some (.error e, c₃) => some (.error e, c₃)
      | some (.ok vs, c₃) => some (.ok (Value.undef :: vs), c₃)

/-- Fuelled embedding of `Container.get`. `none` = out of fuel. -/
def getAux (w : World) : Nat → Container → RegistryKey →
    Option (Except DIError Value × Container)
  | 0, _, _ => none
  | fuel + 1, c, key =>
    match lookupA c.instances key with
    | some v => some (.ok v, c)
    | none =>
      match lookupA c.registry key with
      | none => some (.error (.notRegistered (keyName w key)), c)
      | some cid =>
        match (w cid).injectMetadata with
        | some md =>
          match resolveArgs (getAux w fuel) md c ((w cid).paramTypes.getD []).enum with
          | none => none
          | some (.error e, c₂) => some (.error e, c₂)
          | some (.ok args, c₂) =>
            let inst := Value.obj cid c₂.nextAlloc args
            some (.ok inst, finishInstance key inst { c₂ with nextAlloc := c₂.nextAlloc + 1 })
        | none =>
          let inst := Value.obj cid c.nextAlloc []
          some (.ok inst, finishInstance key inst { c with nextAlloc := c.nextAlloc + 1 })

/-- `Container.get(name)`, with explicit fuel for the recursion. -/
def Container.get (w : World) (c : Container) (fuel : Nat) (key : RegistryKey) :
    Option (Except DIError Value × Container) :=
  getAux w fuel c key

/-- `Container.has(name)`. -/
def Container.has (c : Container) (key : RegistryKey) : Bool :=
  (lookupA c.registry key).isSome || (lookupA c.instances key).isSome

/-- The empty container created by `createContainer()`. -/
def emptyContainer : Container := ⟨[], [], [], 0⟩

/-! ### Basic lemmas about the table operations -/

theorem lookupA_setA {α : Type} (l : List (RegistryKey × α)) (key : RegistryKey)
    (v : α) (k : RegistryKey) :
    lookupA (setA l key v) k = if key = k then some v else lookupA l k := by
  induction l with
  | nil => simp [setA, lookupA]
  | cons hd tl ih =>
    obtain ⟨k₀, v₀⟩ := hd
    by_cases h₀ : k₀ = key
    · subst h₀
      by_cases hk : k₀ = k <;> simp [setA, lookupA, hk]
    · by_cases hk : k₀ = k
      · subst hk
        simp [setA, lookupA, h₀, Ne.symm h₀]
      · simp [setA, lookupA, h₀, hk, ih]

theorem finishInstance_registry (key : RegistryKey) (inst : Value) (c : Container) :
    (finishInstance key inst c).registry = c.registry := by
  unfold finishInstance; split <;> rfl

theorem finishInstance_singletons (key : RegistryKey) (inst : Value) (c : Container) :
    (finishInstance key inst c).singletons = c.singletons := by
  unfold finishInstance; split <;> rfl

theorem finishInstance_nextAlloc (key : RegistryKey) (inst : Value) (c : Container) :
    (finishInstance key inst c).nextAlloc = c.nextAlloc := by
  unfold finishInstance; split <;> rfl

/-! ### The state invariant preserved by every call to `get` -/

/-- All the frame facts of a single `get` call: the registry and the
singleton set are untouched, cached instances stay cached, keys outside
the singleton set keep their (absent) cache entry, and the allocation
counter never decreases. -/
def Pinv (c c' : Container) : Prop :=
  c'.registry = c.registry ∧ c'.singletons = c.singletons ∧
  (∀ k, (lookupA c.instances k).isSome → (lookupA c'.instances k).isSome) ∧
  (∀ k, k ∉ c.singletons → lookupA c'.instances k = lookupA c.instances k) ∧
  c.nextAlloc ≤ c'.nextAlloc

theorem Pinv_refl (c : Container) : Pinv c c :=
  ⟨rfl, rfl, fun _ h => h, fun _ _ => rfl, le_refl _⟩

theorem Pinv_trans {a b c : Container} (hab : Pinv a b) (hbc : Pinv b c) : Pinv a c := by
  obtain ⟨h1, h2, h3, h4, h5⟩ := hab
  obtain ⟨g1, g2, g3, g4, g5⟩ := hbc
  refine ⟨g1.trans h1, g2.trans h2, fun k hk => g3 k (h3 k hk), fun k hk => ?_, h5.trans g5⟩
  rw [g4 k (h2 ▸ hk), h4 k hk]

/-- The final construct-and-maybe-cache step preserves the invariant. -/
theorem Pinv_finish (key : RegistryKey) (inst : Value) (c : Container) :
    Pinv c (finishInstance key inst { c with nextAlloc := c.nextAlloc + 1 }) := by
  unfold finishInstance
  split
  · rename_i hmem
    refine ⟨rfl, rfl, fun k hk => ?_, fun k hk => ?_, Nat.le_succ _⟩
    · simp only [lookupA_setA]
      split <;> simp_all
    · simp only [lookupA_setA]
      have : key ≠ k := fun h => hk (h ▸ hmem)
      simp [this]
  · exact ⟨rfl, rfl, fun _ h => h, fun _ _ => rfl, Nat.le_succ _⟩

/-- Generic preservation of a reflexive-transitive relation along the
argument-resolution loop, given that each recursive `get` preserves it. -/
theorem resolveArgs_pres {g : Container → RegistryKey → Option (Except DIError Value × Container)}
    {md : List (Nat × InjectDirective)} {P : Container → Container → Prop}
    (hrefl : ∀ c, P c c)
    (htrans : ∀ {a b c : Container}, P a b → P b c → P a c)
    (hg : ∀ c k r c', g c k = some (r, c') → P c c') :
    ∀ l c r c', resolveArgs g md c l = some (r, c') → P c c' := by
  intro l
  induction l with
  | nil =>
    intro c r c' h
    simp only [resolveArgs, Option.some.injEq, Prod.mk.injEq] at h
    exact h.2 ▸ hrefl c
  | cons hd tl ih =>
    obtain ⟨i, pt⟩ := hd
    intro c r c' h
    simp only [resolveArgs] at h
    split at h
    · split at h
      · -- truthy directive: a recursive get, then the rest of the loop
        split at h
        · exact absurd h (by simp)
        · rename_i e c₂ heq
          simp only [Option.some.injEq, Prod.mk.injEq] at h
          exact h.2 ▸ hg _ _ _ _ heq
        · rename_i v c₂ heq
          split at h
          · exact absurd h (by simp)
          · rename_i e c₃ heq₂
            simp only [Option.some.injEq, Prod.mk.injEq] at h
            exact h.2 ▸ htrans (hg _ _ _ _ heq) (ih _ _ _ heq₂)
          · rename_i vs c₃ heq₂
            simp only [Option.some.injEq, Prod.mk.injEq] at h
            exact h.2 ▸ htrans (hg _ _ _ _ heq) (ih _ _ _ heq₂)
      · -- falsy entry: slot stays undefined
        split at h
        · exact absurd h (by simp)
        · rename_i e c₃ heq₂
          simp only [Option.some.injEq, Prod.mk.injEq] at h
          exact h.2 ▸ ih _ _ _ heq₂
        · rename_i vs c₃ heq₂
          simp only [Option.some.injEq, Prod.mk.injEq] at h
          exact h.2 ▸ ih _ _ _ heq₂
    · -- no metadata entry for this position
      split at h
      · exact absurd h (by simp)
      · rename_i e c₃ heq₂
        simp only [Option.some.injEq, Prod.mk.injEq] at h
        exact h.2 ▸ ih _ _ _ heq₂
      · rename_i vs c₃ heq₂
        simp only [Option.some.injEq, Prod.mk.injEq] at h
        exact h.2 ▸ ih _ _ _ heq₂

/-- Every `get` call (successful or throwing) satisfies `Pinv`. -/
theorem getAux_inv (w : World) :
    ∀ fuel c key r c', getAux w fuel c key = some (r, c') → Pinv c c' := by
  intro fuel
  induction fuel with
  | zero => intro c key r c' h; exact absurd h (by simp [getAux])
  | succ fuel ih =>
    intro c key r c' h
    simp only [getAux] at h
    split at h
    · simp only [Option.some.injEq, Prod.mk.injEq] at h
      exact h.2 ▸ Pinv_refl c
    · split at h
      · simp only [Option.some.injEq, Prod.mk.injEq] at h
        exact h.2 ▸ Pinv_refl c
      · split at h
        · -- metadata present: run the resolution loop, construct, cache
          split at h
          · exact absurd h (by simp)
          · rename_i e c₂ heq
            simp only [Option.some.injEq, Prod.mk.injEq] at h
            exact h.2 ▸ resolveArgs_pres Pinv_refl Pinv_trans
              (fun c k r c' hg => ih c k r c' hg) _ _ _ _ heq
          · rename_i args c₂ heq
            simp only [Option.some.injEq, Prod.mk.injEq] at h
            exact h.2 ▸ Pinv_trans
              (resolveArgs_pres Pinv_refl Pinv_trans
                (fun c k r c' hg => ih c k r c' hg) _ _ _ _ heq)
              (Pinv_finish _ _ _)
        · -- no metadata: zero-argument construction
          simp only [Option.some.injEq, Prod.mk.injEq] at h
          exact h.2 ▸ Pinv_finish _ _ _

/-- Allocation counter monotonicity along the resolution loop. -/
theorem resolveArgs_alloc (w : World) (fuel : Nat) (md : List (Nat × InjectDirective))
    (l : List (Nat × Nat)) (c : Container) (r : Except DIError (List Value))
    (c' : Container) (h : resolveArgs (getAux w fuel) md c l = some (r, c')) :
    c.nextAlloc ≤ c'.nextAlloc :=
  (resolveArgs_pres (P := Pinv) Pinv_refl Pinv_trans
    (fun c k r c' hg => getAux_inv w fuel c k r c' hg) _ _ _ _ h).2.2.2.2

/-- Singleton-set preservation along the resolution loop. -/
theorem resolveArgs_singletons (w : World) (fuel : Nat) (md : List (Nat × InjectDirective))
    (l : List (Nat × Nat)) (c : Container) (r : Except DIError (List Value))
    (c' : Container) (h : resolveArgs (getAux w fuel) md c l = some (r, c')) :
    c'.singletons = c.singletons :=
  (resolveArgs_pres (P := Pinv) Pinv_refl Pinv_trans
    (fun c k r c' hg => getAux_inv w fuel c k r c' hg) _ _ _ _ h).2.1

/-- A successful `get` on a key with no cached instance goes through the
registry and returns a freshly constructed object: its allocation id is
at least the starting counter and one below the final counter. -/
theorem getAux_ok_fresh (w : World) (fuel : Nat) (c : Container) (key : RegistryKey)
    (v : Value) (c' : Container) (hmiss : lookupA c.instances key = none)
    (h : getAux w fuel c key = some (.ok v, c')) :
    ∃ cid a args, lookupA c.registry key = some cid ∧ v = Value.obj cid a args ∧
      c.nextAlloc ≤ a ∧ c'.nextAlloc = a + 1 := by
  cases fuel with
  | zero => exact absurd h (by simp [getAux])
  | succ fuel =>
    simp only [getAux, hmiss] at h
    split at h
    · exact absurd h (by simp)
    · rename_i cid hreg
      split at h
      · rename_i md hmd
        split at h
        · exact absurd h (by simp)
        · exact absurd h (by simp)
        · rename_i args c₂ heq
          simp only [Option.some.injEq, Prod.mk.injEq, Except.ok.injEq] at h
          refine ⟨cid, c₂.nextAlloc, args, hreg, h.1.symm, ?_, ?_⟩
          · exact resolveArgs_alloc w fuel md _ c _ c₂ heq
          · rw [← h.2, finishInstance_nextAlloc]
      · simp only [Option.some.injEq, Prod.mk.injEq, Except.ok.injEq] at h
        refine ⟨cid, c.nextAlloc, [], hreg, h.1.symm, le_refl _, ?_⟩
        rw [← h.2, finishInstance_nextAlloc]

/-- A successful `get` on an uncached singleton key stores the returned
instance into the cache. -/
theorem getAux_singleton_caches (w : World) (fuel : Nat) (c : Container)
    (key : RegistryKey) (v : Value) (c' : Container)
    (hmiss : lookupA c.instances key = none) (hsing : key ∈ c.singletons)
    (h : getAux w fuel c key = some (.ok v, c')) :
    lookupA c'.instances key = some v := by
  cases fuel with
  | zero => exact absurd h (by simp [getAux])
  | succ fuel =>
    simp only [getAux, hmiss] at h
    split at h
    · exact absurd h (by simp)
    · rename_i cid hreg
      split at h
      · rename_i md hmd
        split at h
        · exact absurd h (by simp)
        · exact absurd h (by simp)
        · rename_i args c₂ heq
          simp only [Option.some.injEq, Prod.mk.injEq, Except.ok.injEq] at h
          have hs : key ∈ c₂.singletons :=
            (resolveArgs_singletons w fuel md _ c _ c₂ heq) ▸ hsing
          rw [← h.2, ← h.1]
          simp only [finishInstance]
          rw [if_pos hs]
          simp [lookupA_setA]
      · simp only [Option.some.injEq, Prod.mk.injEq, Except.ok.injEq] at h
        rw [← h.2, ← h.1]
        simp only [finishInstance]
        rw [if_pos hsing]
        simp [lookupA_setA]

/-- A cached instance is returned as-is, leaving the state untouched. -/
theorem getAux_cache_hit (w : World) (fuel : Nat) (c : Container)
    (key : RegistryKey) (v : Value) (hhit : lookupA c.instances key = some v) :
    getAux w (fuel + 1) c key = some (.ok v, c) := by
  simp [getAux, hhit]

/-! ### Static resolvability

To show that a `get` that throws never caches the key it was resolving,
we relate runtime results to a cache-independent notion of
resolvability over the (immutable) registry and the initial cache. -/

/-- The resolution keys demanded by the loop for metadata `md` over the
enumerated parameter list `l`: one key per truthy directive. -/
def depKeysOf (md : List (Nat × InjectDirective)) (l : List (Nat × Nat)) :
    List RegistryKey :=
  l.filterMap (fun p => match lookupNat md p.1 with
    | some d => if truthy d then some (dirKey d p.2) else none
    | none => none)

/-- The resolution keys demanded when constructing class `cid`. -/
def depKeys (w : World) (cid : Nat) : List RegistryKey :=
  match (w cid).injectMetadata with
  | none => []
  | some md => depKeysOf md ((w cid).paramTypes.getD []).enum

/-- `key` resolves within depth `n` over the initial state `c₀`: it is
cached in `c₀`, or registered with all demanded dependency keys
resolving within depth `n - 1`. -/
def StaticOkN (w : World) (c₀ : Container) : Nat → RegistryKey → Prop
  | 0, _ => False
  | n + 1, key =>
    (lookupA c₀.instances key).isSome ∨
    ∃ cid, lookupA c₀.registry key = some cid ∧
      ∀ d ∈ depKeys w cid, StaticOkN w c₀ n d

def StaticOk (w : World) (c₀ : Container) (key : RegistryKey) : Prop :=
  ∃ n, StaticOkN w c₀ n key

theorem StaticOkN_mono (w : World) (c₀ : Container) :
    ∀ n m key, n ≤ m → StaticOkN w c₀ n key → StaticOkN w c₀ m key := by
  intro n
  induction n with
  | zero => intro m key _ h; exact absurd h (by simp [StaticOkN])
  | succ n ih =>
    intro m key hle h
    obtain ⟨m, rfl⟩ : ∃ m', m = m' + 1 :=
      ⟨m - 1, by omega⟩
    simp only [StaticOkN] at h ⊢
    rcases h with h | ⟨cid, hreg, hdeps⟩
    · exact Or.inl h
    · exact Or.inr ⟨cid, hreg, fun d hd => ih m d (by omega) (hdeps d hd)⟩

theorem staticOk_list (w : World) (c₀ : Container) :
    ∀ l : List RegistryKey, (∀ d ∈ l, StaticOk w c₀ d) →
      ∃ N, ∀ d ∈ l, StaticOkN w c₀ N d := by
  intro l
  induction l with
  | nil => intro _; exact ⟨0, by simp⟩
  | cons hd tl ih =>
    intro h
    obtain ⟨n₀, hn₀⟩ := h hd (by simp)
    obtain ⟨N, hN⟩ := ih (fun d hd => h d (by simp [hd]))
    refine ⟨max n₀ N, fun d hd => ?_⟩
    rcases List.mem_cons.mp hd with rfl | hd
    · exact StaticOkN_mono w c₀ n₀ _ d (le_max_left _ _) hn₀
    · exact StaticOkN_mono w c₀ N _ d (le_max_right _ _) (hN d hd)

/-- Every key in the cache of `c` was either cached initially or is
statically resolvable. -/
def CacheOk (w : World) (c₀ c : Container) : Prop :=
  ∀ k, (lookupA c.instances k).isSome →
    (lookupA c₀.instances k).isSome ∨ StaticOk w c₀ k

/-- Soundness of one fuel level: a terminating `get` answers `ok` only
on statically resolvable keys and `error` only on statically
unresolvable ones, and preserves `CacheOk`. -/
def MainP (w : World) (c₀ : Container) (fuel : Nat) : Prop :=
  ∀ c key r c', c.registry = c₀.registry →
    (∀ k, (lookupA c₀.instances k).isSome → (lookupA c.instances k).isSome) →
    CacheOk w c₀ c →
    getAux w fuel c key = some (r, c') →
    CacheOk w c₀ c' ∧
    (∀ e, r = .error e → ¬ StaticOk w c₀ key) ∧
    (∀ v, r = .ok v → StaticOk w c₀ key)

theorem cacheOk_finish (w : World) (c₀ : Container) (key : RegistryKey)
    (inst : Value) (c : Container) (hc : CacheOk w c₀ c)
    (hkey : StaticOk w c₀ key) :
    CacheOk w c₀ (finishInstance key inst { c with nextAlloc := c.nextAlloc + 1 }) := by
  unfold finishInstance
  split
  · intro k hk
    simp only [lookupA_setA] at hk
    by_cases hkk : key = k
    · exact Or.inr (hkk ▸ hkey)
    · rw [if_neg hkk] at hk
      exact hc k hk
  · exact hc

/-- `depKeysOf` on a cons cell with a truthy directive. -/
theorem depKeysOf_cons_truthy (md : List (Nat × InjectDirective)) (i pt : Nat)
    (rest : List (Nat × Nat)) (d : InjectDirective) (hmd : lookupNat md i = some d)
    (ht : truthy d = true) :
    depKeysOf md ((i, pt) :: rest) = dirKey d pt :: depKeysOf md rest := by
  simp [depKeysOf, hmd, ht]

/-- `depKeysOf` on a cons cell with no (or a falsy) directive. -/
theorem depKeysOf_cons_skip (md : List (Nat × InjectDirective)) (i pt : Nat)
    (rest : List (Nat × Nat))
    (h : lookupNat md i = none ∨ ∃ d, lookupNat md i = some d ∧ truthy d = false) :
    depKeysOf md ((i, pt) :: rest) = depKeysOf md rest := by
  rcases h with h | ⟨d, hmd, ht⟩
  · simp [depKeysOf, h]
  · simp [depKeysOf, hmd, ht]

/-- Soundness of the resolution loop, assuming soundness of the
recursive `get` it invokes. -/
theorem resolveArgs_static (w : World) (c₀ : Container) (fuel : Nat)
    (ih : MainP w c₀ fuel) (md : List (Nat × InjectDirective)) :
    ∀ l c r c', c.registry = c₀.registry →
      (∀ k, (lookupA c₀.instances k).isSome → (lookupA c.instances k).isSome) →
      CacheOk w c₀ c →
      resolveArgs (getAux w fuel) md c l = some (r, c') →
      CacheOk w c₀ c' ∧
      (∀ args, r = .ok args → ∀ d ∈ depKeysOf md l, StaticOk w c₀ d) ∧
      (∀ e, r = .error e → ∃ d ∈ depKeysOf md l, ¬ StaticOk w c₀ d) := by
  intro l
  induction l with
  | nil =>
    intro c r c' _ _ hcache h
    simp only [resolveArgs, Option.some.injEq, Prod.mk.injEq] at h
    refine ⟨h.2 ▸ hcache, fun args hargs => by simp [depKeysOf], fun e he => ?_⟩
    rw [← h.1] at he; cases he
  | cons hd tl ihl =>
    obtain ⟨i, pt⟩ := hd
    intro c r c' hreg hsub hcache h
    simp only [resolveArgs] at h
    split at h
    · rename_i d hmd
      split at h
      · rename_i ht
        rw [depKeysOf_cons_truthy md i pt tl d hmd ht]
        split at h
        · exact absurd h (by simp)
        · rename_i e c₂ heq
          simp only [Option.some.injEq, Prod.mk.injEq] at h
          obtain ⟨hr, hc⟩ := h
          subst hc
          obtain ⟨hco, herr, _⟩ := ih c (dirKey d pt) _ c₂ hreg hsub hcache heq
          refine ⟨hco, fun args hargs => ?_, fun e' he' => ?_⟩
          · rw [← hr] at hargs; cases hargs
          · exact ⟨dirKey d pt, by simp, herr e rfl⟩
        · rename_i v c₂ heq
          obtain ⟨hco, _, hok⟩ := ih c (dirKey d pt) _ c₂ hreg hsub hcache heq
          have hinv := getAux_inv w fuel c (dirKey d pt) _ c₂ heq
          have hreg₂ : c₂.registry = c₀.registry := hinv.1 ▸ hreg
          have hsub₂ : ∀ k, (lookupA c₀.instances k).isSome →
              (lookupA c₂.instances k).isSome :=
            fun k hk => hinv.2.2.1 k (hsub k hk)
          split at h
          · exact absurd h (by simp)
          · rename_i e c₃ heq₂
            simp only [Option.some.injEq, Prod.mk.injEq] at h
            obtain ⟨hr, hc⟩ := h
            subst hc
            obtain ⟨hco₃, _, herr₃⟩ := ihl c₂ _ c₃ hreg₂ hsub₂ hco heq₂
            refine ⟨hco₃, fun args hargs => ?_, fun e' he' => ?_⟩
            · rw [← hr] at hargs; cases hargs
            · obtain ⟨d₃, hd₃, hnd₃⟩ := herr₃ e rfl
              exact ⟨d₃, by simp [hd₃], hnd₃⟩
          · rename_i vs c₃ heq₂
            simp only [Option.some.injEq, Prod.mk.injEq] at h
            obtain ⟨hr, hc⟩ := h
            subst hc
            obtain ⟨hco₃, hok₃, _⟩ := ihl c₂ _ c₃ hreg₂ hsub₂ hco heq₂
            refine ⟨hco₃, fun args hargs => ?_, fun e' he' => ?_⟩
            · intro d' hd'
              rcases List.mem_cons.mp hd' with rfl | hd'
              · exact hok v rfl
              · exact hok₃ vs rfl d' hd'
            · rw [← hr] at he'; cases he'
      · rename_i ht
        rw [depKeysOf_cons_skip md i pt tl
          (Or.inr ⟨d, hmd, Bool.not_eq_true _ ▸ ht⟩)]
        split at h
        · exact absurd h (by simp)
        · rename_i e c₃ heq₂
          simp only [Option.some.injEq, Prod.mk.injEq] at h
          obtain ⟨hr, hc⟩ := h
          subst hc
          obtain ⟨hco₃, _, herr₃⟩ := ihl c _ c₃ hreg hsub hcache heq₂
          subst hr
          refine ⟨hco₃, fun args hargs => ?_, fun e' he' => herr₃ e rfl⟩
          simp at hargs
        · rename_i vs c₃ heq₂
          simp only [Option.some.injEq, Prod.mk.injEq] at h
          obtain ⟨hr, hc⟩ := h
          subst hc
          obtain ⟨hco₃, hok₃, _⟩ := ihl c _ c₃ hreg hsub hcache heq₂
          subst hr
          refine ⟨hco₃, fun args hargs => hok₃ vs rfl, fun e' he' => ?_⟩
          simp at he'
    · rename_i hmd
      rw [depKeysOf_cons_skip md i pt tl (Or.inl hmd)]
      split at h
      · exact absurd h (by simp)
      · rename_i e c₃ heq₂
        simp only [Option.some.injEq, Prod.mk.injEq] at h
        obtain ⟨hr, hc⟩ := h
        subst hc
        obtain ⟨hco₃, _, herr₃⟩ := ihl c _ c₃ hreg hsub hcache heq₂
        subst hr
        refine ⟨hco₃, fun args hargs => ?_, fun e' he' => herr₃ e rfl⟩
        simp at hargs
      · rename_i vs c₃ heq₂
        simp only [Option.some.injEq, Prod.mk.injEq] at h
        obtain ⟨hr, hc⟩ := h
        subst hc
        obtain ⟨hco₃, hok₃, _⟩ := ihl c _ c₃ hreg hsub hcache heq₂
        subst hr
        refine ⟨hco₃, fun args hargs => hok₃ vs rfl, fun e' he' => ?_⟩
        simp at he'

/-- Soundness holds at every fuel level. -/
theorem mainP_all (w : World) (c₀ : Container) : ∀ fuel, MainP w c₀ fuel := by
  intro fuel
  induction fuel with
  | zero =>
    intro c key r c' _ _ _ h
    exact absurd h (by simp [getAux])
  | succ fuel ih =>
    intro c key r c' hreg hsub hcache h
    simp only [getAux] at h
    split at h
    · rename_i v hhit
      simp only [Option.some.injEq, Prod.mk.injEq] at h
      obtain ⟨hr, hc⟩ := h
      subst hc; subst hr
      refine ⟨hcache, fun e he => ?_, fun v' hv' => ?_⟩
      · simp at he
      · rcases hcache key (by simp [hhit]) with hc₀ | hst
        · exact ⟨1, Or.inl hc₀⟩
        · exact hst
    · rename_i hmiss
      split at h
      · rename_i hregmiss
        simp only [Option.some.injEq, Prod.mk.injEq] at h
        obtain ⟨hr, hc⟩ := h
        subst hc; subst hr
        refine ⟨hcache, fun e he => ?_, fun v hv => ?_⟩
        · rintro ⟨n, hn⟩
          cases n with
          | zero => exact hn
          | succ n =>
            rcases hn with hcached | ⟨cid, hcreg, _⟩
            · exact absurd (hsub key hcached) (by simp [hmiss])
            · rw [← hreg, hregmiss] at hcreg
              simp at hcreg
        · simp at hv
      · rename_i cid hregkey
        have hc₀reg : lookupA c₀.registry key = some cid := hreg ▸ hregkey
        split at h
        · rename_i md hmd
          have hdk : depKeys w cid = depKeysOf md ((w cid).paramTypes.getD []).enum := by
            simp [depKeys, hmd]
          split at h
          · exact absurd h (by simp)
          · rename_i e c₂ heq
            simp only [Option.some.injEq, Prod.mk.injEq] at h
            obtain ⟨hr, hc⟩ := h
            subst hc; subst hr
            obtain ⟨hco₂, _, herr₂⟩ :=
              resolveArgs_static w c₀ fuel ih md _ c _ c₂ hreg hsub hcache heq
            obtain ⟨d, hd, hnd⟩ := herr₂ e rfl
            refine ⟨hco₂, fun e' he' => ?_, fun v hv => ?_⟩
            · rintro ⟨n, hn⟩
              cases n with
              | zero => exact hn
              | succ n =>
                rcases hn with hcached | ⟨cid', hcreg', hdeps⟩
                · exact absurd (hsub key hcached) (by simp [hmiss])
                · rw [hc₀reg] at hcreg'
                  injection hcreg' with hcid
                  subst hcid
                  exact hnd ⟨n, hdeps d (hdk ▸ hd)⟩
            · simp at hv
          · rename_i args c₂ heq
            simp only [Option.some.injEq, Prod.mk.injEq] at h
            obtain ⟨hr, hc⟩ := h
            subst hc; subst hr
            obtain ⟨hco₂, hok₂, _⟩ :=
              resolveArgs_static w c₀ fuel ih md _ c _ c₂ hreg hsub hcache heq
            have hdeps : ∀ d ∈ depKeys w cid, StaticOk w c₀ d := by
              rw [hdk]; exact hok₂ args rfl
            obtain ⟨N, hN⟩ := staticOk_list w c₀ _ hdeps
            have hkey : StaticOk w c₀ key := ⟨N + 1, Or.inr ⟨cid, hc₀reg, hN⟩⟩
            exact ⟨cacheOk_finish w c₀ key _ c₂ hco₂ hkey,
              fun e he => by simp at he, fun v hv => hkey⟩
        · rename_i hmd
          simp only [Option.some.injEq, Prod.mk.injEq] at h
          obtain ⟨hr, hc⟩ := h
          subst hc; subst hr
          have hkey : StaticOk w c₀ key :=
            ⟨1, Or.inr ⟨cid, hc₀reg, by simp [depKeys, hmd]⟩⟩
          exact ⟨cacheOk_finish w c₀ key _ c hcache hkey,
            fun e he => by simp at he, fun v hv => hkey⟩

/-- A `get` that throws never caches the key it was resolving. -/
theorem getAux_error_no_cache (w : World) (fuel : Nat) (c : Container)
    (key : RegistryKey) (e : DIError) (c' : Container)
    (hmiss : lookupA c.instances key = none)
    (h : getAux w fuel c key = some (.error e, c')) :
    lookupA c'.instances key = none := by
  obtain ⟨hco, herr, _⟩ := mainP_all w c fuel c key _ c' rfl (fun k hk => hk)
    (fun k hk => Or.inl hk) h
  cases hfinal : lookupA c'.instances key with
  | none => rfl
  | some v =>
    rcases hco key (by simp [hfinal]) with hc | hst
    · rw [hmiss] at hc; simp at hc
    · exact absurd hst (herr e rfl)

/-! ### Remaining helper lemmas -/

theorem mem_addS (l : List RegistryKey) (key : RegistryKey) : key ∈ addS l key := by
  unfold addS
  split
  · assumption
  · simp

/-- The resolved argument list has one slot per enumerated parameter. -/
theorem resolveArgs_ok_length
    (g : Container → RegistryKey → Option (Except DIError Value × Container))
    (md : List (Nat × InjectDirective)) :
    ∀ l c args c', resolveArgs g md c l = some (.ok args, c') →
      args.length = l.length := by
  intro l
  induction l with
  | nil =>
    intro c args c' h
    simp only [resolveArgs, Option.some.injEq, Prod.mk.injEq, Except.ok.injEq] at h
    simp [← h.1]
  | cons hd tl ih =>
    obtain ⟨i, pt⟩ := hd
    intro c args c' h
    simp only [resolveArgs] at h
    split at h
    · split at h
      · split at h
        · exact absurd h (by simp)
        · exact absurd h (by simp)
        · rename_i v c₂ heq
          split at h
          · exact absurd h (by simp)
          · exact absurd h (by simp)
          · rename_i vs c₃ heq₂
            simp only [Option.some.injEq, Prod.mk.injEq, Except.ok.injEq] at h
            rw [← h.1]
            simp [ih _ _ _ heq₂]
      · split at h
        · exact absurd h (by simp)
        · exact absurd h (by simp)
        · rename_i vs c₃ heq₂
          simp only [Option.some.injEq, Prod.mk.injEq, Except.ok.injEq] at h
          rw [← h.1]
          simp [ih _ _ _ heq₂]
    · split at h
      · exact absurd h (by simp)
      · exact absurd h (by simp)
      · rename_i vs c₃ heq₂
        simp only [Option.some.injEq, Prod.mk.injEq, Except.ok.injEq] at h
        rw [← h.1]
        simp [ih _ _ _ heq₂]

/-! ### The claims -/

/-- C6: `get` on a key present in neither `instances` nor `registry`
throws `NotRegisteredError`, whose message contains the human-readable
key, and returns with the container state exactly as it was. -/
theorem claim_C6_not_registered (w : World) (fuel : Nat) (c : Container)
    (key : RegistryKey) (hmiss : lookupA c.instances key = none)
    (hreg : lookupA c.registry key = none) :
    getAux w (fuel + 1) c key = some (.error (.notRegistered (keyName w key)), c) ∧
    ∃ a b, errMessage (.notRegistered (keyName w key)) = a ++ keyName w key ++ b := by
  constructor
  · simp [getAux, hmiss, hreg]
  · exact ⟨"Dependency " ++ String.singleton quoteChar,
      String.singleton quoteChar ++ " is not registered", by
        simp [errMessage, quoted, String.append_assoc]⟩

theorem claim_C6_witness :
    getAux (fun _ => ⟨"A", none, none⟩) 1 emptyContainer (.name "x") =
      some (.error (.notRegistered "x"), emptyContainer) ∧
    ∃ a b, errMessage (.notRegistered "x") = a ++ "x" ++ b := by
  have h := claim_C6_not_registered (fun _ => ⟨"A", none, none⟩) 0 emptyContainer
    (.name "x") (by rfl) (by rfl)
  exact ⟨h.1, h.2⟩

/-- C7: after a successful `registerInstance(K, inst)`, the instance is
in the cache and every subsequent `get(K)` returns `inst` itself with
the container state (including the allocation counter) untouched: no
construction takes place. -/
theorem claim_C7_instance_identity (w : World) (c c' : Container)
    (key : RegistryKey) (inst : Value)
    (h : Container.registerInstance w c key inst = (none, c')) :
    lookupA c'.instances key = some inst ∧
    ∀ f, Container.get w c' (f + 1) key = some (.ok inst, c') := by
  unfold Container.registerInstance at h
  split at h
  · exact absurd h (by simp)
  · simp only [Prod.mk.injEq] at h
    have hlook : lookupA c'.instances key = some inst := by
      rw [← h.2]
      simp [lookupA_setA]
    exact ⟨hlook, fun f => getAux_cache_hit w f c' key inst hlook⟩

theorem claim_C7_witness :
    lookupA (Container.registerInstance (fun _ => ⟨"A", none, none⟩)
        emptyContainer (.name "x") (.ext 7)).2.instances (.name "x") = some (.ext 7) ∧
    Container.get (fun _ => ⟨"A", none, none⟩)
        (Container.registerInstance (fun _ => ⟨"A", none, none⟩)
          emptyContainer (.name "x") (.ext 7)).2 3 (.name "x") =
      some (.ok (.ext 7),
        (Container.registerInstance (fun _ => ⟨"A", none, none⟩)
          emptyContainer (.name "x") (.ext 7)).2) := by
  have h := claim_C7_instance_identity (fun _ => ⟨"A", none, none⟩)
    emptyContainer _ (.name "x") (.ext 7) (by rfl)
  exact ⟨h.1, h.2 2⟩

/-- C8: `get` never changes the registry or the singleton set, whether
it succeeds or throws; the instance cache is the only table it may
write. -/
theorem claim_C8_get_frame (w : World) (c : Container) (fuel : Nat)
    (key : RegistryKey) (r : Except DIError Value) (c' : Container)
    (h : Container.get w c fuel key = some (r, c')) :
    c'.registry = c.registry ∧ c'.singletons = c.singletons := by
  have hinv := getAux_inv w fuel c key r c' h
  exact ⟨hinv.1, hinv.2.1⟩

theorem claim_C8_witness :
    (⟨[(.cls 0, 0)], [(.cls 0, Value.obj 0 0 [])], [.cls 0], 1⟩ : Container).registry =
      (⟨[(.cls 0, 0)], [], [.cls 0], 0⟩ : Container).registry ∧
    (⟨[(.cls 0, 0)], [(.cls 0, Value.obj 0 0 [])], [.cls 0], 1⟩ : Container).singletons =
      (⟨[(.cls 0, 0)], [], [.cls 0], 0⟩ : Container).singletons :=
  claim_C8_get_frame (fun _ => ⟨"A", none, none⟩)
    ⟨[(.cls 0, 0)], [], [.cls 0], 0⟩ 1 (.cls 0) (.ok (Value.obj 0 0 []))
    ⟨[(.cls 0, 0)], [(.cls 0, Value.obj 0 0 [])], [.cls 0], 1⟩ (by rfl)

/-- C9: registering a class key stores the class itself, ignoring any
explicitly supplied `classType` argument: the second argument matters
only for string-name keys. -/
theorem claim_C9_class_key (w : World) (c : Container) (id : Nat)
    (copt : Option Nat) (s : Bool) :
    Container.register w c (.cls id) copt s = Container.register w c (.cls id) none s ∧
    (lookupA c.registry (.cls id) = none →
      (Container.register w c (.cls id) copt s).1 = none ∧
      lookupA (Container.register w c (.cls id) copt s).2.registry (.cls id) = some id) := by
  constructor
  · cases copt <;> rfl
  · intro hdup
    cases copt <;>
      simp [Container.register, registerKey, hdup, lookupA_setA]

theorem claim_C9_witness :
    Container.register (fun _ => ⟨"A", none, none⟩) emptyContainer (.cls 0) (some 5) true =
      Container.register (fun _ => ⟨"A", none, none⟩) emptyContainer (.cls 0) none true ∧
    ((Container.register (fun _ => ⟨"A", none, none⟩) emptyContainer (.cls 0) (some 5) true).1 = none ∧
      lookupA (Container.register (fun _ => ⟨"A", none, none⟩)
        emptyContainer (.cls 0) (some 5) true).2.registry (.cls 0) = some 0) := by
  have h := claim_C9_class_key (fun _ => ⟨"A", none, none⟩) emptyContainer 0 (some 5) true
  exact ⟨h.1, h.2 (by rfl)⟩

/-- A shared demo world for concrete witnesses: class 0 = `A` (no
metadata), class 1 = `B` (one by-type parameter of type `A`), class 2 =
`C` (one by-name parameter naming an unregistered key), class 3 = `N`
(one by-name parameter naming `"a"`). -/
def demoWorld : World := fun cid =>
  match cid with
  | 0 => ⟨"A", none, none⟩
  | 1 => ⟨"B", some [(0, .byType)], some [0]⟩
  | 2 => ⟨"C", some [(0, .byName "missing")], some [0]⟩
  | 3 => ⟨"N", some [(0, .byName "a")], some [0]⟩
  | _ => ⟨"X", none, none⟩

theorem registerKey_true_state (w : World) (c c₁ : Container) (key : RegistryKey)
    (t : Nat) (hr : registerKey w c key t true = (none, c₁)) :
    c₁.instances = c.instances ∧ key ∈ c₁.singletons := by
  unfold registerKey at hr
  split at hr
  · exact absurd hr (by simp)
  · simp only [Prod.mk.injEq] at hr
    rw [← hr.2]
    exact ⟨rfl, by simpa using mem_addS c.singletons key⟩

theorem registerKey_false_state (w : World) (c c₁ : Container) (key : RegistryKey)
    (t : Nat) (hr : registerKey w c key t false = (none, c₁)) :
    c₁.instances = c.instances ∧ c₁.singletons = c.singletons := by
  unfold registerKey at hr
  split at hr
  · exact absurd hr (by simp)
  · simp only [Prod.mk.injEq] at hr
    rw [← hr.2]
    exact ⟨rfl, by simp⟩

/-- Two successive transient resolutions yield distinct fresh objects
and never cache the key. -/
theorem getAux_transient (w : World) (fuel₁ fuel₂ : Nat) (c c₁ c₂ : Container)
    (key : RegistryKey) (v₁ v₂ : Value)
    (hmiss : lookupA c.instances key = none) (hnot : key ∉ c.singletons)
    (h₁ : getAux w fuel₁ c key = some (.ok v₁, c₁))
    (h₂ : getAux w fuel₂ c₁ key = some (.ok v₂, c₂)) :
    v₁ ≠ v₂ ∧ lookupA c₁.instances key = none ∧ lookupA c₂.instances key = none := by
  have inv₁ := getAux_inv w fuel₁ c key _ c₁ h₁
  have hm₁ : lookupA c₁.instances key = none := by
    rw [inv₁.2.2.2.1 key hnot]; exact hmiss
  have hnot₁ : key ∉ c₁.singletons := inv₁.2.1 ▸ hnot
  have inv₂ := getAux_inv w fuel₂ c₁ key _ c₂ h₂
  have hm₂ : lookupA c₂.instances key = none := by
    rw [inv₂.2.2.2.1 key hnot₁]; exact hm₁
  obtain ⟨cid₁, a₁, args₁, hreg₁, hv₁, ha₁, hna₁⟩ :=
    getAux_ok_fresh w fuel₁ c key v₁ c₁ hmiss h₁
  obtain ⟨cid₂, a₂, args₂, hreg₂, hv₂, ha₂, hna₂⟩ :=
    getAux_ok_fresh w fuel₂ c₁ key v₂ c₂ hm₁ h₂
  refine ⟨fun hvv => ?_, hm₁, hm₂⟩
  rw [hv₁, hv₂] at hvv
  injection hvv with hcls halloc hargs
  have hlt : a₁ + 1 ≤ a₂ := hna₁ ▸ ha₂
  omega

/-- C1 counterexample: registering the same key through the two
different paths does not fail — `register` checks only the registry and
`registerInstance` checks only the instance cache, so the mixed
combinations succeed in both orders. -/
theorem claim_C1_counterexample :
    (Container.register demoWorld emptyContainer (.name "x") (some 0) true).1 = none ∧
    (Container.registerInstance demoWorld
      (Container.register demoWorld emptyContainer (.name "x") (some 0) true).2
      (.name "x") (.ext 7)).1 = none ∧
    (Container.registerInstance demoWorld emptyContainer (.name "y") (.ext 7)).1 = none ∧
    (Container.register demoWorld
      (Container.registerInstance demoWorld emptyContainer (.name "y") (.ext 7)).2
      (.name "y") (some 0) true).1 = none := by
  exact ⟨rfl, rfl, rfl, rfl⟩

/-- C1 (amended): same-path double registration fails with the
corresponding duplicate error and leaves the container exactly as it
was; this covers `register` after `register` (for a name key with a
supplied type, and for a class key with any second argument) and
`registerInstance` after `registerInstance`. -/
theorem claim_C1_same_path_duplicates (w : World) (c : Container) (key : RegistryKey) :
    (∀ t₀ t s, lookupA c.registry key = some t₀ →
      Container.register w c key (some t) s =
        (some (.duplicateRegistration (keyName w key)), c)) ∧
    (∀ t₀ id copt s, key = .cls id → lookupA c.registry key = some t₀ →
      Container.register w c key copt s =
        (some (.duplicateRegistration (keyName w key)), c)) ∧
    (∀ v₀ inst, lookupA c.instances key = some v₀ →
      Container.registerInstance w c key inst =
        (some (.duplicateInstance (keyName w key)), c)) := by
  refine ⟨fun t₀ t s h => ?_, fun t₀ id copt s hk h => ?_, fun v₀ inst h => ?_⟩
  · cases key <;> simp [Container.register, registerKey, h]
  · subst hk
    cases copt <;> simp [Container.register, registerKey, h]
  · simp [Container.registerInstance, h]

theorem claim_C1_witness :
    Container.register demoWorld ⟨[(.name "x", 0)], [(.name "x", .ext 5)], [.name "x"], 0⟩
        (.name "x") (some 1) true =
      (some (.duplicateRegistration "x"),
        ⟨[(.name "x", 0)], [(.name "x", .ext 5)], [.name "x"], 0⟩) ∧
    Container.registerInstance demoWorld
        ⟨[(.name "x", 0)], [(.name "x", .ext 5)], [.name "x"], 0⟩ (.name "x") (.ext 9) =
      (some (.duplicateInstance "x"),
        ⟨[(.name "x", 0)], [(.name "x", .ext 5)], [.name "x"], 0⟩) := by
  have h := claim_C1_same_path_duplicates demoWorld
    ⟨[(.name "x", 0)], [(.name "x", .ext 5)], [.name "x"], 0⟩ (.name "x")
  exact ⟨h.1 0 1 true (by rfl), h.2.2 (.ext 5) (.ext 9) (by rfl)⟩

/-- C3: a key registered with the default singleton flag resolves to
one cached instance: the first successful `get` stores the constructed
instance in the cache, and every later `get` returns that very instance
with the state unchanged. -/
theorem claim_C3_singleton_identity (w : World) (c₀ c₁ : Container)
    (key : RegistryKey) (copt : Option Nat)
    (hmiss : lookupA c₀.instances key = none)
    (hr : Container.register w c₀ key copt true = (none, c₁)) :
    ∀ fuel v c', Container.get w c₁ fuel key = some (.ok v, c') →
      lookupA c'.instances key = some v ∧
      ∀ f, Container.get w c' (f + 1) key = some (.ok v, c') := by
  have hstate : c₁.instances = c₀.instances ∧ key ∈ c₁.singletons := by
    unfold Container.register at hr
    cases key with
    | name s =>
      cases copt with
      | none => exact absurd hr (by simp)
      | some t => exact registerKey_true_state w c₀ c₁ _ t hr
    | cls id =>
      cases copt with
      | none => exact registerKey_true_state w c₀ c₁ _ id hr
      | some t => exact registerKey_true_state w c₀ c₁ _ id hr
  intro fuel v c' h
  have hm₁ : lookupA c₁.instances key = none := by rw [hstate.1]; exact hmiss
  have hcached := getAux_singleton_caches w fuel c₁ key v c' hm₁ hstate.2 h
  exact ⟨hcached, fun f => getAux_cache_hit w f c' key v hcached⟩

theorem claim_C3_witness :
    lookupA (⟨[(.cls 0, 0)], [(.cls 0, Value.obj 0 0 [])], [.cls 0], 1⟩ :
        Container).instances (.cls 0) = some (Value.obj 0 0 []) ∧
    Container.get demoWorld ⟨[(.cls 0, 0)], [(.cls 0, Value.obj 0 0 [])], [.cls 0], 1⟩
        4 (.cls 0) =
      some (.ok (Value.obj 0 0 []),
        ⟨[(.cls 0, 0)], [(.cls 0, Value.obj 0 0 [])], [.cls 0], 1⟩) := by
  have h := claim_C3_singleton_identity demoWorld emptyContainer
    ⟨[(.cls 0, 0)], [], [.cls 0], 0⟩ (.cls 0) none (by rfl) (by rfl)
  have h₁ := h 1 (Value.obj 0 0 [])
    ⟨[(.cls 0, 0)], [(.cls 0, Value.obj 0 0 [])], [.cls 0], 1⟩ (by rfl)
  exact ⟨h₁.1, h₁.2 3⟩

/-- C4: a key registered with singleton explicitly false yields a fresh
distinct instance on every `get`, and neither call writes the key into
the instance cache. -/
theorem claim_C4_transient_identity (w : World) (c₀ c₁ : Container)
    (key : RegistryKey) (copt : Option Nat)
    (hmiss : lookupA c₀.instances key = none)
    (hnot : key ∉ c₀.singletons)
    (hr : Container.register w c₀ key copt false = (none, c₁)) :
    ∀ f₁ f₂ v₁ c₂ v₂ c₃,
      Container.get w c₁ f₁ key = some (.ok v₁, c₂) →
      Container.get w c₂ f₂ key = some (.ok v₂, c₃) →
      v₁ ≠ v₂ ∧ lookupA c₂.instances key = none ∧ lookupA c₃.instances key = none := by
  have hstate : c₁.instances = c₀.instances ∧ c₁.singletons = c₀.singletons := by
    unfold Container.register at hr
    cases key with
    | name s =>
      cases copt with
      | none => exact absurd hr (by simp)
      | some t => exact registerKey_false_state w c₀ c₁ _ t hr
    | cls id =>
      cases copt with
      | none => exact registerKey_false_state w c₀ c₁ _ id hr
      | some t => exact registerKey_false_state w c₀ c₁ _ id hr
  intro f₁ f₂ v₁ c₂ v₂ c₃ h₁ h₂
  have hm₁ : lookupA c₁.instances key = none := by rw [hstate.1]; exact hmiss
  have hn₁ : key ∉ c₁.singletons := hstate.2 ▸ hnot
  exact getAux_transient w f₁ f₂ c₁ c₂ c₃ key v₁ v₂ hm₁ hn₁ h₁ h₂

theorem claim_C4_witness :
    Value.obj 0 0 [] ≠ Value.obj 0 1 [] ∧
    lookupA (⟨[(.cls 0, 0)], [], [], 1⟩ : Container).instances (.cls 0) = none ∧
    lookupA (⟨[(.cls 0, 0)], [], [], 2⟩ : Container).instances (.cls 0) = none := by
  have h := claim_C4_transient_identity demoWorld emptyContainer
    ⟨[(.cls 0, 0)], [], [], 0⟩ (.cls 0) none (by rfl) (by decide) (by rfl)
  exact h 1 1 (Value.obj 0 0 []) ⟨[(.cls 0, 0)], [], [], 1⟩
    (Value.obj 0 1 []) ⟨[(.cls 0, 0)], [], [], 2⟩ (by rfl) (by rfl)

/-- C5: an error thrown by a recursive `get` propagates unchanged
through the argument-resolution loop, and then unchanged out of the
enclosing `get`, so it reaches the original caller as-is; the result is
the error, not an instance; and a `get` that throws never stores the
key it was resolving into the instance cache. -/
theorem claim_C5_error_propagation :
    (∀ (g : Container → RegistryKey → Option (Except DIError Value × Container))
        (md : List (Nat × InjectDirective)) (c : Container) (i pt : Nat)
        (rest : List (Nat × Nat)) (d : InjectDirective) (e : DIError) (c₂ : Container),
      lookupNat md i = some d → truthy d = true →
      g c (dirKey d pt) = some (.error e, c₂) →
      resolveArgs g md c ((i, pt) :: rest) = some (.error e, c₂)) ∧
    (∀ (w : World) (fuel : Nat) (c : Container) (key : RegistryKey) (cid : Nat)
        (md : List (Nat × InjectDirective)) (e : DIError) (c₂ : Container),
      lookupA c.instances key = none →
      lookupA c.registry key = some cid →
      (w cid).injectMetadata = some md →
      resolveArgs (getAux w fuel) md c ((w cid).paramTypes.getD []).enum =
        some (.error e, c₂) →
      getAux w (fuel + 1) c key = some (.error e, c₂)) ∧
    (∀ (w : World) (fuel : Nat) (c : Container) (key : RegistryKey) (e : DIError)
        (c' : Container),
      getAux w fuel c key = some (.error e, c') →
      lookupA c.instances key = none →
      lookupA c'.instances key = none) := by
  refine ⟨?_, ?_, ?_⟩
  · intro g md c i pt rest d e c₂ hmd ht hg
    simp [resolveArgs, hmd, ht, hg]
  · intro w fuel c key cid md e c₂ hmiss hreg hmd hra
    simp [getAux, hmiss, hreg, hmd, hra]
  · intro w fuel c key e c' h hmiss
    exact getAux_error_no_cache w fuel c key e c' hmiss h

theorem claim_C5_witness :
    resolveArgs (getAux demoWorld 1) [(0, .byName "missing")]
        ⟨[(.cls 2, 2)], [], [.cls 2], 0⟩ [(0, 0)] =
      some (.error (.notRegistered "missing"), ⟨[(.cls 2, 2)], [], [.cls 2], 0⟩) ∧
    getAux demoWorld 2 ⟨[(.cls 2, 2)], [], [.cls 2], 0⟩ (.cls 2) =
      some (.error (.notRegistered "missing"), ⟨[(.cls 2, 2)], [], [.cls 2], 0⟩) ∧
    lookupA (⟨[(.cls 2, 2)], [], [.cls 2], 0⟩ : Container).instances (.cls 2) = none := by
  refine ⟨?_, ?_, ?_⟩
  · exact claim_C5_error_propagation.1 (getAux demoWorld 1) [(0, .byName "missing")]
      ⟨[(.cls 2, 2)], [], [.cls 2], 0⟩ 0 0 [] (.byName "missing")
      (.notRegistered "missing") ⟨[(.cls 2, 2)], [], [.cls 2], 0⟩
      (by rfl) (by rfl) (by rfl)
  · exact claim_C5_error_propagation.2.1 demoWorld 1 ⟨[(.cls 2, 2)], [], [.cls 2], 0⟩
      (.cls 2) 2 [(0, .byName "missing")] (.notRegistered "missing")
      ⟨[(.cls 2, 2)], [], [.cls 2], 0⟩ (by rfl) (by rfl) (by rfl) (by rfl)
  · exact claim_C5_error_propagation.2.2 demoWorld 2 ⟨[(.cls 2, 2)], [], [.cls 2], 0⟩
      (.cls 2) (.notRegistered "missing") ⟨[(.cls 2, 2)], [], [.cls 2], 0⟩
      (by rfl) (by rfl)

/-- Decomposition of a successful resolution step for a position with a
truthy directive: the argument for that position is the result of the
recursive `get` on the directive's key, and the remaining arguments
come from the rest of the loop run from the threaded state. -/
theorem resolveArgs_cons_ok
    (g : Container → RegistryKey → Option (Except DIError Value × Container))
    (md : List (Nat × InjectDirective)) (c : Container) (i pt : Nat)
    (rest : List (Nat × Nat)) (d : InjectDirective)
    (args : List Value) (c' : Container)
    (hmd : lookupNat md i = some d) (ht : truthy d = true)
    (h : resolveArgs g md c ((i, pt) :: rest) = some (.ok args, c')) :
    ∃ v vs c₂, args = v :: vs ∧ g c (dirKey d pt) = some (.ok v, c₂) ∧
      resolveArgs g md c₂ rest = some (.ok vs, c') := by
  simp only [resolveArgs, hmd] at h
  split at h
  · split at h
    · exact absurd h (by simp)
    · exact absurd h (by simp)
    · rename_i v c₂ heq
      split at h
      · exact absurd h (by simp)
      · exact absurd h (by simp)
      · rename_i vs c₃ heq₂
        simp only [Option.some.injEq, Prod.mk.injEq, Except.ok.injEq] at h
        refine ⟨v, vs, c₂, h.1.symm, heq, ?_⟩
        rw [heq₂, h.2]
  · rename_i hf
    exact absurd ht hf

/-- C2: a truthy injection directive at position `i` makes `get`
resolve argument `i` through a recursive `get` — on the explicit name
for a by-name directive (`dirKey (.byName nm) pt = .name nm`), on the
declared type of parameter `i` for a by-type directive
(`dirKey .byType pt = .cls pt`) — and the constructed instance receives
the resolved arguments in positional order.  In particular, for a type
`B` with a single parameter of declared type `A` and a by-type (resp.
by-name) directive at position 0, `get(B)` constructs a `B` whose sole
argument is the result of `get(A)` (resp. `get(name)`). -/
theorem claim_C2_directive_resolution :
    (∀ (g : Container → RegistryKey → Option (Except DIError Value × Container))
        (md : List (Nat × InjectDirective)) (c : Container) (i pt : Nat)
        (rest : List (Nat × Nat)) (d : InjectDirective)
        (args : List Value) (c' : Container),
      lookupNat md i = some d → truthy d = true →
      resolveArgs g md c ((i, pt) :: rest) = some (.ok args, c') →
      ∃ v vs c₂, args = v :: vs ∧ g c (dirKey d pt) = some (.ok v, c₂) ∧
        resolveArgs g md c₂ rest = some (.ok vs, c')) ∧
    (∀ (w : World) (fuel : Nat) (c : Container) (key : RegistryKey) (bid aid : Nat)
        (v : Value) (c' : Container),
      lookupA c.instances key = none →
      lookupA c.registry key = some bid →
      (w bid).injectMetadata = some [(0, .byType)] →
      (w bid).paramTypes = some [aid] →
      getAux w (fuel + 1) c key = some (.ok v, c') →
      ∃ vA c₂, getAux w fuel c (.cls aid) = some (.ok vA, c₂) ∧
        v = Value.obj bid c₂.nextAlloc [vA]) ∧
    (∀ (w : World) (fuel : Nat) (c : Container) (key : RegistryKey) (bid pt : Nat)
        (nm : String) (v : Value) (c' : Container),
      nm ≠ "" →
      lookupA c.instances key = none →
      lookupA c.registry key = some bid →
      (w bid).injectMetadata = some [(0, .byName nm)] →
      (w bid).paramTypes = some [pt] →
      getAux w (fuel + 1) c key = some (.ok v, c') →
      ∃ vN c₂, getAux w fuel c (.name nm) = some (.ok vN, c₂) ∧
        v = Value.obj bid c₂.nextAlloc [vN]) := by
  refine ⟨resolveArgs_cons_ok, ?_, ?_⟩
  · intro w fuel c key bid aid v c' hmiss hreg hmd hpt h
    simp only [getAux, hmiss, hreg, hmd, hpt, Option.getD_some, List.enum,
      List.enumFrom] at h
    split at h
    · exact absurd h (by simp)
    · exact absurd h (by simp)
    · rename_i args c₂ heq
      obtain ⟨vA, vs, cm, hcons, hg, hrest⟩ :=
        resolveArgs_cons_ok (getAux w fuel) [(0, .byType)] c 0 aid [] .byType args c₂
          rfl rfl heq
      simp only [resolveArgs, Option.some.injEq, Prod.mk.injEq, Except.ok.injEq] at hrest
      simp only [Option.some.injEq, Prod.mk.injEq, Except.ok.injEq] at h
      refine ⟨vA, c₂, ?_, ?_⟩
      · rw [← hrest.2]; exact hg
      · rw [← h.1, hcons, ← hrest.1]
  · intro w fuel c key bid pt nm v c' hnm hmiss hreg hmd hpt h
    have ht : truthy (.byName nm) = true := by
      have hne : nm.isEmpty = false := by
        cases hne : nm.isEmpty
        · rfl
        · exact absurd ((String.isEmpty_iff nm).mp hne) hnm
      simp [truthy, hne]
    simp only [getAux, hmiss, hreg, hmd, hpt, Option.getD_some, List.enum,
      List.enumFrom] at h
    split at h
    · exact absurd h (by simp)
    · exact absurd h (by simp)
    · rename_i args c₂ heq
      obtain ⟨vN, vs, cm, hcons, hg, hrest⟩ :=
        resolveArgs_cons_ok (getAux w fuel) [(0, .byName nm)] c 0 pt [] (.byName nm)
          args c₂ rfl ht heq
      simp only [resolveArgs, Option.some.injEq, Prod.mk.injEq, Except.ok.injEq] at hrest
      simp only [Option.some.injEq, Prod.mk.injEq, Except.ok.injEq] at h
      refine ⟨vN, c₂, ?_, ?_⟩
      · rw [← hrest.2]; exact hg
      · rw [← h.1, hcons, ← hrest.1]

theorem claim_C2_witness :
    (∃ vA c₂, getAux demoWorld 1 ⟨[(.cls 0, 0), (.cls 1, 1)], [], [.cls 0, .cls 1], 0⟩
        (.cls 0) = some (.ok vA, c₂) ∧
      Value.obj 1 1 [Value.obj 0 0 []] = Value.obj 1 c₂.nextAlloc [vA]) ∧
    (∃ vN c₂, getAux demoWorld 1 ⟨[(.name "a", 0), (.cls 3, 3)], [], [], 0⟩
        (.name "a") = some (.ok vN, c₂) ∧
      Value.obj 3 1 [Value.obj 0 0 []] = Value.obj 3 c₂.nextAlloc [vN]) := by
  constructor
  · exact claim_C2_directive_resolution.2.1 demoWorld 1
      ⟨[(.cls 0, 0), (.cls 1, 1)], [], [.cls 0, .cls 1], 0⟩ (.cls 1) 1 0
      (Value.obj 1 1 [Value.obj 0 0 []])
      ⟨[(.cls 0, 0), (.cls 1, 1)],
        [(.cls 0, Value.obj 0 0 []), (.cls 1, Value.obj 1 1 [Value.obj 0 0 []])],
        [.cls 0, .cls 1], 2⟩
      (by rfl) (by rfl) (by rfl) (by rfl) (by rfl)
  · exact claim_C2_directive_resolution.2.2 demoWorld 1
      ⟨[(.name "a", 0), (.cls 3, 3)], [], [], 0⟩ (.cls 3) 3 0 "a"
      (Value.obj 3 1 [Value.obj 0 0 []])
      ⟨[(.name "a", 0), (.cls 3, 3)], [], [], 2⟩
      (by decide) (by rfl) (by rfl) (by rfl) (by rfl) (by rfl)

/-- C10: with injection metadata present, the number of argument slots
`get` considers equals the length of the declared parameter-type list
(empty when that list is absent); directives at positions beyond it are
ignored, so a type with directives but no declared parameter types is
constructed with an empty argument list. -/
theorem claim_C10_slot_count (w : World) (fuel : Nat) (c : Container)
    (key : RegistryKey) (cid : Nat) (md : List (Nat × InjectDirective))
    (v : Value) (c' : Container)
    (hmiss : lookupA c.instances key = none)
    (hreg : lookupA c.registry key = some cid)
    (hmd : (w cid).injectMetadata = some md)
    (h : getAux w fuel c key = some (.ok v, c')) :
    (∃ a args, v = Value.obj cid a args ∧
      args.length = ((w cid).paramTypes.getD []).length) ∧
    ((w cid).paramTypes = none → ∃ a, v = Value.obj cid a []) := by
  cases fuel with
  | zero => exact absurd h (by simp [getAux])
  | succ fuel =>
    simp only [getAux, hmiss, hreg, hmd] at h
    split at h
    · exact absurd h (by simp)
    · exact absurd h (by simp)
    · rename_i args c₂ heq
      simp only [Option.some.injEq, Prod.mk.injEq, Except.ok.injEq] at h
      have hlen : args.length = ((w cid).paramTypes.getD []).length := by
        rw [resolveArgs_ok_length (getAux w fuel) md _ c args c₂ heq, List.enum_length]
      refine ⟨⟨c₂.nextAlloc, args, h.1.symm, hlen⟩, fun hpt => ?_⟩
      have hnil : args = [] := by
        apply List.length_eq_zero.mp
        rw [hlen, hpt]
        rfl
      exact ⟨c₂.nextAlloc, by rw [← h.1, hnil]⟩

theorem claim_C10_witness :
    (∃ a args, Value.obj 0 0 [] = Value.obj 0 a args ∧
      args.length = (((fun _ => ⟨"D", some [(0, .byName "dep"), (5, .byType)], none⟩ :
        World) 0).paramTypes.getD []).length) ∧
    (((fun _ => ⟨"D", some [(0, .byName "dep"), (5, .byType)], none⟩ : World) 0).paramTypes =
        none → ∃ a, Value.obj 0 0 [] = Value.obj 0 a []) :=
  claim_C10_slot_count (fun _ => ⟨"D", some [(0, .byName "dep"), (5, .byType)], none⟩)
    1 ⟨[(.cls 0, 0)], [], [], 0⟩ (.cls 0) 0 [(0, .byName "dep"), (5, .byType)]
    (Value.obj 0 0 []) ⟨[(.cls 0, 0)], [], [], 1⟩ (by rfl) (by rfl) (by rfl) (by rfl)
